import Mathlib

/-!
Shallow embedding of `src/task_manager.py`: the `Task` entity (with its cached
`dict` attribute), the `TaskManager` store operations (add, view, complete,
remove, save, load, undo), `get_next_id`, and one iteration of the `run`
command loop, together with a reachability relation over full system states
(store, undo history, on-disk snapshot).

Machine conventions: ids and timestamps are `Nat`; the external dateutil
collaborator is a `DateSvc` (a parse function that may fail and the `str`
rendering of a datetime); an uncaught Python exception is the `Outcome.crash`
constructor, carrying the state at the moment the exception escapes.
-/

namespace TaskMgr

/-- Dictionary representation of a task, the `dict` attribute built in
`Task.__init__` and also the shape of one entry of the tasks.json array. -/
structure TaskDict where
  id : Nat
  title : String
  due_date : String
  priority : String
  complete : Bool
deriving Repr, DecidableEq

/-- External date collaborators: `parse` (dateutil) turns a string into a
timestamp and fails on malformed input; `toStr` is Python's `str` rendering
of a datetime, used when the cached dict is built. -/
structure DateSvc where
  parse : String → Option Nat
  toStr : Nat → String

/-- In-memory task object: the fields assigned in `Task.__init__`, including
the cached `dict` attribute, built once at construction. -/
structure Task where
  id : Nat
  title : String
  due_date : Nat
  priority : String
  _complete : Bool
  saved : Bool
  dict : TaskDict
deriving Repr, DecidableEq

/-- `Task.__init__`: stores the fields and builds the `dict` attribute once,
from the field values at construction time. -/
def Task.init (toStr : Nat → String) (id : Nat) (title : String) (due_date : Nat)
    (priority : String) (complete : Bool) (saved : Bool) : Task :=
  { id := id, title := title, due_date := due_date, priority := priority,
    _complete := complete, saved := saved,
    dict := { id := id, title := title, due_date := toStr due_date,
              priority := priority, complete := complete } }

/-- The field-for-field serializable mapping computed fresh from the current
field values of a task (the spec's ToSerializable). Stated from the spec's
words, to compare against the cached `dict` the code maintains. -/
def Task.freshDict (toStr : Nat → String) (t : Task) : TaskDict :=
  { id := t.id, title := t.title, due_date := toStr t.due_date,
    priority := t.priority, complete := t._complete }

/-- The `complete` property setter: assigns the given value to `_complete`,
but writes the literal `True` into the cached dict and leaves `saved` alone. -/
def Task.setComplete (t : Task) (completed : Bool) : Task :=
  { t with _complete := completed, dict := { t.dict with complete := true } }

/-- Mutable state of a `TaskManager`: the task list and the id counter. -/
structure Store where
  tasks : List Task
  next_id : Nat
deriving Repr, DecidableEq

/-- Result of running a piece of Python code: normal return, or an uncaught
exception escaping with the (mutated-so-far) state it leaves behind. -/
inductive Outcome (α : Type) where
  | ok : α → Outcome α
  | crash : α → Outcome α
deriving Repr, DecidableEq

/-- The state an outcome carries, crash or not. -/
def Outcome.val {α : Type} : Outcome α → α
  | .ok a => a
  | .crash a => a

/-- Running maximum mirroring `max_id = max(ids)` recomputed inside the loop
of `get_next_id`; `none` when the list is empty, in which case the variable
`max_id` is never assigned. -/
def runningMax : List Nat → Option Nat
  | [] => none
  | x :: xs => some (xs.foldl max x)

/-- `TaskManager.get_next_id`: reads tasks.json and returns max id + 1 for a
non-empty array. When the file is absent, the `finally` block reads the
unbound `file_data` and raises `NameError`; when the array is empty, `max_id`
is unbound and the `return` raises `UnboundLocalError`: both paths crash
(`none`), despite the docstring promising 0 for a missing file. -/
def get_next_id (file : Option (List TaskDict)) : Option Nat :=
  match file with
  | none => none
  | some l =>
    match runningMax (l.map TaskDict.id) with
    | none => none
    | some m => some (m + 1)

/-- `TaskManager.add_task`: on a parsable date, appends a task with id
`next_id` and then increments `next_id`. On a parse failure the retry loop is
left at once by `finally: break`, `due_date` stays unbound, and building the
`Task` raises an uncaught `UnboundLocalError` (the `except ValueError` does
not catch it), after the invalid-date message but before any mutation. -/
def add_task (svc : DateSvc) (title dateInput priorityInput : String)
    (st : Store) : Outcome Store :=
  match svc.parse dateInput with
  | none => .crash st
  | some d =>
    .ok { tasks := st.tasks ++ [Task.init svc.toStr st.next_id title d priorityInput false false],
          next_id := st.next_id + 1 }

/-- Digit accumulation of Python's `int()` on a decimal literal. -/
def digitsToNat : List Char → Nat → Option Nat
  | [], acc => some acc
  | c :: cs, acc =>
    if c.toNat ≥ 48 ∧ c.toNat ≤ 57 then digitsToNat cs (acc * 10 + (c.toNat - 48)) else none

/-- Python's `int()`: parses an optionally signed decimal string, raising
`ValueError` (here `none`) on anything else. -/
def strToInt (s : String) : Option Int :=
  match s.data with
  | [] => none
  | c :: cs =>
    if c = Char.ofNat 45 then
      match cs with
      | [] => none
      | _ => (digitsToNat cs 0).map (fun n => -(n : Int))
    else (digitsToNat (c :: cs) 0).map (fun n => (n : Int))

/-- Scan of `complete_task`: `for task in filter(...)` leaves `task_` bound to
the last matching task, which is then completed in place. Returns the updated
list and whether any task matched. -/
def completeLast (n : Int) : List Task → List Task × Bool
  | [] => ([], false)
  | t :: ts =>
    match completeLast n ts with
    | (ts', true) => (t :: ts', true)
    | (_, false) =>
      if (t.id : Int) == n then (t.setComplete true :: ts, true) else (t :: ts, false)

/-- `TaskManager.complete_task`: parses the id input with `int`, scans for the
last matching task and sets its `complete` property. A non-integer input
raises `ValueError`; no match leaves `task_ = None` and the property
assignment raises `AttributeError`: both crash uncaught, state unchanged. -/
def complete_task (idInput : String) (st : Store) : Outcome Store :=
  match strToInt idInput with
  | none => .crash st
  | some n =>
    match completeLast n st.tasks with
    | (ts, true) => .ok { st with tasks := ts }
    | (_, false) => .crash st

/-- Scan of `remove_task`: `task_` ends bound to the last matching task and
`tasks.remove(task_)` removes that very object (identity equality). -/
def removeLast (n : Int) : List Task → List Task × Bool
  | [] => ([], false)
  | t :: ts =>
    match removeLast n ts with
    | (ts', true) => (t :: ts', true)
    | (_, false) =>
      if (t.id : Int) == n then (ts, true) else (t :: ts, false)

/-- `TaskManager.remove_task`: like `complete_task` but deletes the matching
task; with no match `task_` is an unbound local and `tasks.remove(task_)`
raises `UnboundLocalError`, crashing with the list unchanged. -/
def remove_task (idInput : String) (st : Store) : Outcome Store :=
  match strToInt idInput with
  | none => .crash st
  | some n =>
    match removeLast n st.tasks with
    | (ts, true) => .ok { st with tasks := ts }
    | (_, false) => .crash st

/-- `TaskManager.save_tasks`: collects every task's cached dict as the new
file contents (full overwrite) and flags each task as saved. Returns the
updated store and the file data written. -/
def save_tasks (st : Store) : Store × List TaskDict :=
  ({ st with tasks := st.tasks.map (fun t => { t with saved := true }) },
   st.tasks.map Task.dict)

/-- The file as it stands when `load_tasks` reads it back: when some task is
unsaved and the user answered `y`, each unsaved task's dict has been appended
by `Task.to_json` (which creates the file if absent); otherwise unchanged. -/
def mergedFile (saveChoice : String) (st : Store) (file : Option (List TaskDict)) :
    Option (List TaskDict) :=
  if !(st.tasks.filter (fun t => !t.saved)).isEmpty && saveChoice == "y" then
    some (file.getD [] ++ (st.tasks.filter (fun t => !t.saved)).map Task.dict)
  else file

/-- Reading loop of `load_tasks`: `tasks` was cleared, then one task per file
entry is constructed (with `saved=True`) and appended; an entry whose date
string fails to parse raises an uncaught `ParserError`, leaving the partially
rebuilt list. -/
def loadLoop (svc : DateSvc) : List TaskDict → List Task → Outcome (List Task)
  | [], acc => .ok acc
  | d :: rest, acc =>
    match svc.parse d.due_date with
    | none => .crash acc
    | some dd =>
      loadLoop svc rest (acc ++ [Task.init svc.toStr d.id d.title dd d.priority d.complete true])

/-- `TaskManager.load_tasks`: optionally appends the unsaved tasks to the file
first (`mergedFile`), then reads it; when absent, prints the no-tasks message
and leaves everything untouched, else replaces `tasks` wholesale with freshly
constructed tasks carrying `saved = True`. Returns store and file. -/
def load_tasks (svc : DateSvc) (saveChoice : String) (st : Store)
    (file : Option (List TaskDict)) : Outcome (Store × Option (List TaskDict)) :=
  match mergedFile saveChoice st file with
  | none => .ok (st, none)
  | some entries =>
    match loadLoop svc entries [] with
    | .ok ts => .ok ({ st with tasks := ts }, some entries)
    | .crash ts => .crash ({ st with tasks := ts }, some entries)

/-- `TaskManager.undo`: takes the task list from `previous_state` and pops the
snapshot chain one level; `next_id` is left at its current value. On an empty
history `previous_state` is the initial empty list and the `.tasks` attribute
access raises `AttributeError`, crashing with the state unchanged. -/
def undo (st : Store) (history : List Store) : Outcome (Store × List Store) :=
  match history with
  | [] => .crash (st, [])
  | prev :: rest => .ok ({ tasks := prev.tasks, next_id := st.next_id }, rest)

/-- Boolean strict order on strings, used for priority components of sort keys. -/
def strLt (a b : String) : Bool := decide (a < b)

/-- Boolean order on strings: less-than-or-equal. -/
def strLe (a b : String) : Bool := strLt a b || a == b

/-- Sorting option 1 of `view_tasks`: key `(due_date, priority)` ascending. -/
def byDueDate (a b : Task) : Bool :=
  a.due_date < b.due_date || (a.due_date == b.due_date && strLe a.priority b.priority)

/-- Sorting option 2 of `view_tasks`: key `(priority, due_date)` ascending. -/
def byPriority (a b : Task) : Bool :=
  strLt a.priority b.priority || (a.priority == b.priority && a.due_date ≤ b.due_date)

/-- `TaskManager.view_tasks`: returns the (unchanged) store, the list handed
to `print_tasks`, and whether the invalid-sorting-option message was printed.
With an empty list it prints the no-tasks message and shows nothing. An
unknown option makes `action = None`, and `sorted(self.tasks, key=None)`
compares the `Task` objects themselves, raising `TypeError` as soon as two
elements are compared; so only lists of length at least two reach the handler
that reports the option as invalid, and the display stays the unsorted copy. -/
def view_tasks (sortAnswer sortChoice : String) (st : Store) :
    Store × List Task × Bool :=
  if st.tasks.isEmpty then (st, [], false)
  else if sortAnswer == "y" then
    if sortChoice == "1" then (st, st.tasks.mergeSort byDueDate, false)
    else if sortChoice == "2" then (st, st.tasks.mergeSort byPriority, false)
    else if 2 ≤ st.tasks.length then (st, st.tasks, true)
    else (st, st.tasks, false)
  else (st, st.tasks, false)

/-- Full system state: the manager's mutable state, the chain of deep-copied
snapshots reachable through `previous_state`, and the tasks.json contents
(`none` when the file does not exist). -/
structure Sys where
  store : Store
  history : List Store
  file : Option (List TaskDict)
deriving Repr, DecidableEq

/-- The user inputs one loop iteration may consume, besides the menu choice. -/
structure Inputs where
  title : String
  dateInput : String
  priorityInput : String
  idInput : String
  sortAnswer : String
  sortChoice : String
  saveChoice : String
deriving Repr, DecidableEq

/-- The menu choices for which `run` does not push `previous_state`. -/
def noPushChoices : List String := ["1", "5", "6", "7", "8"]

/-- One iteration of `TaskManager.run`: a deep copy of the current state is
pushed for every choice outside `noPushChoices` (unrecognized ones included),
then the choice is dispatched; an unrecognized choice only prints a message. -/
def step (svc : DateSvc) (choice : String) (inp : Inputs) (sys : Sys) : Outcome Sys :=
  let hist := if noPushChoices.contains choice then sys.history
              else sys.store :: sys.history
  if choice == "1" then
    .ok { sys with history := hist,
                   store := (view_tasks inp.sortAnswer inp.sortChoice sys.store).1 }
  else if choice == "2" then
    match add_task svc inp.title inp.dateInput inp.priorityInput sys.store with
    | .ok st => .ok { sys with history := hist, store := st }
    | .crash st => .crash { sys with history := hist, store := st }
  else if choice == "3" then
    match complete_task inp.idInput sys.store with
    | .ok st => .ok { sys with history := hist, store := st }
    | .crash st => .crash { sys with history := hist, store := st }
  else if choice == "4" then
    match remove_task inp.idInput sys.store with
    | .ok st => .ok { sys with history := hist, store := st }
    | .crash st => .crash { sys with history := hist, store := st }
  else if choice == "5" then
    .ok { sys with history := hist, store := (save_tasks sys.store).1,
                   file := some (save_tasks sys.store).2 }
  else if choice == "6" then
    match load_tasks svc inp.saveChoice sys.store sys.file with
    | .ok (st, f) => .ok { history := hist, store := st, file := f }
    | .crash (st, f) => .crash { history := hist, store := st, file := f }
  else if choice == "7" then
    match undo sys.store hist with
    | .ok (st, h) => .ok { store := st, history := h, file := sys.file }
    | .crash (st, h) => .crash { store := st, history := h, file := sys.file }
  else if choice == "8" then .ok { sys with history := hist }
  else .ok { sys with history := hist }

/-- States reachable by the command loop: startup computes `next_id` from a
non-empty snapshot whose ids are pairwise distinct, then any number of
successfully completed iterations follow. -/
inductive Reachable (svc : DateSvc) : Sys → Prop where
  | init : ∀ (l : List TaskDict) (n : Nat), get_next_id (some l) = some n →
      (l.map TaskDict.id).Nodup →
      Reachable svc { store := { tasks := [], next_id := n }, history := [], file := some l }
  | tr : ∀ (c : String) (inp : Inputs) (s s' : Sys), Reachable svc s →
      step svc c inp s = .ok s' → Reachable svc s'

/-- States reachable by the command loop when the undo choice is never used. -/
inductive ReachableNU (svc : DateSvc) : Sys → Prop where
  | init : ∀ (l : List TaskDict) (n : Nat), get_next_id (some l) = some n →
      (l.map TaskDict.id).Nodup →
      ReachableNU svc { store := { tasks := [], next_id := n }, history := [], file := some l }
  | tr : ∀ (c : String) (inp : Inputs) (s s' : Sys), c ≠ "7" → ReachableNU svc s →
      step svc c inp s = .ok s' → ReachableNU svc s'

/-- The ids of the in-memory tasks, in list order. -/
def idsOf (l : List Task) : List Nat := l.map Task.id

/-- The ids of the on-disk entries; an absent file holds none. -/
def fileIds : Option (List TaskDict) → List Nat
  | none => []
  | some l => l.map TaskDict.id

/-! ### Basic lemmas about the operations -/

/-- The store component `view_tasks` returns is the stored one, untouched. -/
theorem view_tasks_fst (a c : String) (st : Store) : (view_tasks a c st).1 = st := by
  unfold view_tasks
  repeat' split
  all_goals rfl

/-- A left fold of `max` is at least its seed. -/
theorem foldl_max_le_left (x : Nat) (xs : List Nat) : x ≤ xs.foldl max x := by
  induction xs generalizing x with
  | nil => simp
  | cons a as ih => exact le_trans (le_max_left x a) (ih (max x a))

/-- A left fold of `max` is at least every list element. -/
theorem foldl_max_le_mem (y x : Nat) (xs : List Nat) (h : y ∈ xs) : y ≤ xs.foldl max x := by
  induction xs generalizing x with
  | nil => cases h
  | cons a as ih =>
    rcases List.mem_cons.1 h with rfl | h
    · exact le_trans (le_max_right x y) (foldl_max_le_left (max x y) as)
    · exact ih _ h

/-- `runningMax` bounds every element of its list. -/
theorem runningMax_le (l : List Nat) (m : Nat) (h : runningMax l = some m) :
    ∀ i ∈ l, i ≤ m := by
  cases l with
  | nil => cases h
  | cons x xs =>
    simp only [runningMax, Option.some.injEq] at h
    subst h
    intro i hi
    rcases List.mem_cons.1 hi with rfl | hi
    · exact foldl_max_le_left i xs
    · exact foldl_max_le_mem i x xs hi

/-- Completing the last matching task does not change the id sequence. -/
theorem completeLast_ids (n : Int) (l : List Task) : idsOf (completeLast n l).1 = idsOf l := by
  induction l with
  | nil => rfl
  | cons t ts ih =>
    rcases h : completeLast n ts with ⟨ts', found⟩
    rw [h] at ih
    cases found
    · by_cases hb : ((t.id : Int) == n)
      · simp [completeLast, h, hb, idsOf, Task.setComplete]
      · simp [completeLast, h, hb]
    · simp only [completeLast, h, idsOf, List.map_cons]
      rw [show List.map Task.id ts' = List.map Task.id ts from ih]

/-- Every task left by `completeLast` keeps the id, saved flag and dict id of
a task of the original list. -/
theorem completeLast_mem (n : Int) (l : List Task) :
    ∀ b ∈ (completeLast n l).1, ∃ a ∈ l, b.id = a.id ∧ b.saved = a.saved ∧ b.dict.id = a.dict.id := by
  induction l with
  | nil => simp [completeLast]
  | cons t ts ih =>
    rcases h : completeLast n ts with ⟨ts', found⟩
    rw [h] at ih
    cases found
    · by_cases hb : ((t.id : Int) == n)
      · intro b hb2
        simp only [completeLast, h, hb] at hb2
        rcases List.mem_cons.1 hb2 with rfl | hmem
        · exact ⟨t, List.mem_cons_self t ts, rfl, rfl, rfl⟩
        · exact ⟨b, List.mem_cons_of_mem t hmem, rfl, rfl, rfl⟩
      · intro b hb2
        simp only [completeLast, h, hb] at hb2
        rcases List.mem_cons.1 hb2 with rfl | hmem
        · exact ⟨b, List.mem_cons_self b ts, rfl, rfl, rfl⟩
        · exact ⟨b, List.mem_cons_of_mem t hmem, rfl, rfl, rfl⟩
    · intro b hb2
      simp only [completeLast, h] at hb2
      rcases List.mem_cons.1 hb2 with rfl | hmem
      · exact ⟨b, List.mem_cons_self b ts, rfl, rfl, rfl⟩
      · obtain ⟨a, ha, he⟩ := ih b hmem
        exact ⟨a, List.mem_cons_of_mem t ha, he⟩

/-- Removing the last matching task leaves a sublist of the original list. -/
theorem removeLast_sublist (n : Int) (l : List Task) : (removeLast n l).1.Sublist l := by
  induction l with
  | nil => simp [removeLast]
  | cons t ts ih =>
    rcases h : removeLast n ts with ⟨ts', found⟩
    rw [h] at ih
    cases found
    · by_cases hb : ((t.id : Int) == n)
      · simp only [removeLast, h, hb, if_pos]
        exact List.sublist_cons_self t ts
      · simp [removeLast, h, hb]
    · simp only [removeLast, h]
      exact ih.cons₂ t

/-- What a successful `loadLoop` produces: the accumulated ids followed by the
entry ids in order, every new task freshly constructed with `saved = True`. -/
theorem loadLoop_ok_facts (svc : DateSvc) (entries : List TaskDict) (acc res : List Task)
    (h : loadLoop svc entries acc = .ok res) :
    idsOf res = idsOf acc ++ entries.map TaskDict.id ∧
    ∀ t ∈ res, t ∈ acc ∨ (t.saved = true ∧ t.dict.id = t.id) := by
  induction entries generalizing acc with
  | nil =>
    simp only [loadLoop, Outcome.ok.injEq] at h
    subst h
    exact ⟨by simp, fun t ht => .inl ht⟩
  | cons d rest ih =>
    simp only [loadLoop] at h
    cases hp : svc.parse d.due_date with
    | none => rw [hp] at h; cases h
    | some dd =>
      rw [hp] at h
      obtain ⟨h1, h2⟩ := ih _ h
      constructor
      · rw [h1]
        simp [idsOf, Task.init]
      · intro t ht
        rcases h2 t ht with hin | hfresh
        · rcases List.mem_append.1 hin with hacc | hnew
          · exact .inl hacc
          · right
            rw [List.mem_singleton] at hnew
            subst hnew
            exact ⟨rfl, rfl⟩
        · exact .inr hfresh

/-! ### The undo-free invariant -/

/-- On a list of tasks whose dict ids agree with their ids, the ids of the
dicts are the task ids. -/
theorem dict_ids_eq (l : List Task) (h : ∀ t ∈ l, t.dict.id = t.id) :
    (l.map Task.dict).map TaskDict.id = idsOf l := by
  induction l with
  | nil => rfl
  | cons t ts ih =>
    simp only [List.map_cons, idsOf]
    rw [h t (List.mem_cons_self t ts)]
    have h2 := ih (fun a ha => h a (List.mem_cons_of_mem t ha))
    simp only [idsOf] at h2
    rw [h2]

/-- Reading the file contents with a default empty list keeps the ids. -/
theorem fileIds_getD (file : Option (List TaskDict)) :
    (file.getD []).map TaskDict.id = fileIds file := by
  cases file <;> rfl

/-- Invariant tying the in-memory list, the id counter and the snapshot file
together; every undo-free reachable state satisfies it. -/
structure StInv (st : Store) (file : Option (List TaskDict)) : Prop where
  mem_nodup : (idsOf st.tasks).Nodup
  file_nodup : (fileIds file).Nodup
  mem_lt : ∀ t ∈ st.tasks, t.id < st.next_id
  file_lt : ∀ i ∈ fileIds file, i < st.next_id
  dict_id : ∀ t ∈ st.tasks, t.dict.id = t.id
  unsaved_fresh : ∀ t ∈ st.tasks, t.saved = false → t.id ∉ fileIds file

/-- `add_task` preserves the invariant: the fresh id is `next_id`, above every
live and on-disk id. -/
theorem stinv_add (svc : DateSvc) (ti d p : String) (st st' : Store)
    (file : Option (List TaskDict)) (hi : StInv st file)
    (h : add_task svc ti d p st = .ok st') : StInv st' file := by
  unfold add_task at h
  cases hp : svc.parse d with
  | none => rw [hp] at h; cases h
  | some dd =>
    rw [hp] at h
    injection h with h
    subst h
    refine ⟨?_, hi.file_nodup, ?_, ?_, ?_, ?_⟩
    · simp only [idsOf, List.map_append, List.map_cons, List.map_nil]
      rw [List.nodup_append]
      refine ⟨hi.mem_nodup, List.nodup_singleton _, fun a ha hb => ?_⟩
      rw [List.mem_singleton] at hb
      obtain ⟨t, ht, hid⟩ := List.mem_map.1 ha
      have hlt := hi.mem_lt t ht
      simp only [Task.init] at hb
      omega
    · intro t ht
      rcases List.mem_append.1 ht with hmem | hmem
      · exact Nat.lt_succ_of_lt (hi.mem_lt t hmem)
      · rw [List.mem_singleton] at hmem
        subst hmem
        exact Nat.lt_succ_self _
    · exact fun i hmem => Nat.lt_succ_of_lt (hi.file_lt i hmem)
    · intro t ht
      rcases List.mem_append.1 ht with hmem | hmem
      · exact hi.dict_id t hmem
      · rw [List.mem_singleton] at hmem
        subst hmem
        rfl
    · intro t ht hs
      rcases List.mem_append.1 ht with hmem | hmem
      · exact hi.unsaved_fresh t hmem hs
      · rw [List.mem_singleton] at hmem
        subst hmem
        intro hin
        have := hi.file_lt _ hin
        simp only [Task.init] at this
        omega

/-- `complete_task` preserves the invariant: ids, saved flags and dict ids of
the surviving tasks are those of tasks of the original list. -/
theorem stinv_complete (i : String) (st st' : Store) (file : Option (List TaskDict))
    (hi : StInv st file) (h : complete_task i st = .ok st') : StInv st' file := by
  unfold complete_task at h
  cases hn : strToInt i with
  | none => rw [hn] at h; cases h
  | some n =>
    simp only [hn] at h
    rcases hc : completeLast n st.tasks with ⟨ts, found⟩
    rw [hc] at h
    cases found
    · cases h
    · injection h with h
      subst h
      have hids : idsOf ts = idsOf st.tasks := by
        have h2 := completeLast_ids n st.tasks
        rw [hc] at h2
        exact h2
      have hmem : ∀ b ∈ ts, ∃ a ∈ st.tasks,
          b.id = a.id ∧ b.saved = a.saved ∧ b.dict.id = a.dict.id := by
        intro b hb
        exact completeLast_mem n st.tasks b (by rw [hc]; exact hb)
      refine ⟨?_, hi.file_nodup, ?_, hi.file_lt, ?_, ?_⟩
      · show (idsOf ts).Nodup
        rw [hids]
        exact hi.mem_nodup
      · intro t ht
        obtain ⟨a, ha, h1, _, _⟩ := hmem t ht
        rw [h1]
        exact hi.mem_lt a ha
      · intro t ht
        obtain ⟨a, ha, h1, _, h3⟩ := hmem t ht
        rw [h3, hi.dict_id a ha, h1]
      · intro t ht hs
        obtain ⟨a, ha, h1, h2, _⟩ := hmem t ht
        rw [h1]
        exact hi.unsaved_fresh a ha (by rw [← h2]; exact hs)

/-- `remove_task` preserves the invariant: the result is a sublist. -/
theorem stinv_remove (i : String) (st st' : Store) (file : Option (List TaskDict))
    (hi : StInv st file) (h : remove_task i st = .ok st') : StInv st' file := by
  unfold remove_task at h
  cases hn : strToInt i with
  | none => rw [hn] at h; cases h
  | some n =>
    simp only [hn] at h
    rcases hc : removeLast n st.tasks with ⟨ts, found⟩
    rw [hc] at h
    cases found
    · cases h
    · injection h with h
      subst h
      have hsub : ts.Sublist st.tasks := by
        have h2 := removeLast_sublist n st.tasks
        rw [hc] at h2
        exact h2
      refine ⟨?_, hi.file_nodup, ?_, hi.file_lt, ?_, ?_⟩
      · exact List.Nodup.sublist (hsub.map Task.id) hi.mem_nodup
      · exact fun t ht => hi.mem_lt t (hsub.subset ht)
      · exact fun t ht => hi.dict_id t (hsub.subset ht)
      · exact fun t ht hs => hi.unsaved_fresh t (hsub.subset ht) hs

/-- `save_tasks` preserves the invariant: the file becomes exactly the live
dicts and every task is flagged saved. -/
theorem stinv_save (st : Store) (file : Option (List TaskDict)) (hi : StInv st file) :
    StInv (save_tasks st).1 (some (save_tasks st).2) := by
  simp only [save_tasks]
  have hids : idsOf (st.tasks.map (fun t => { t with saved := true })) = idsOf st.tasks := by
    simp only [idsOf, List.map_map]
    rfl
  have hfids : fileIds (some (st.tasks.map Task.dict)) = idsOf st.tasks :=
    dict_ids_eq st.tasks hi.dict_id
  refine ⟨?_, ?_, ?_, ?_, ?_, ?_⟩
  · show (idsOf (st.tasks.map (fun t => { t with saved := true }))).Nodup
    rw [hids]
    exact hi.mem_nodup
  · show (fileIds (some (st.tasks.map Task.dict))).Nodup
    rw [hfids]
    exact hi.mem_nodup
  · intro t ht
    obtain ⟨a, ha, hae⟩ := List.mem_map.1 ht
    have := hi.mem_lt a ha
    rw [← hae]
    exact this
  · intro i hmem
    rw [hfids] at hmem
    obtain ⟨a, ha, hae⟩ := List.mem_map.1 hmem
    rw [← hae]
    exact hi.mem_lt a ha
  · intro t ht
    obtain ⟨a, ha, hae⟩ := List.mem_map.1 ht
    rw [← hae]
    exact hi.dict_id a ha
  · intro t ht hs
    obtain ⟨a, ha, hae⟩ := List.mem_map.1 ht
    rw [← hae] at hs
    cases hs

/-- When the merged file is absent, the original file was absent already. -/
theorem mergedFile_none (ch : String) (st : Store) (file : Option (List TaskDict))
    (h : mergedFile ch st file = none) : file = none := by
  unfold mergedFile at h
  split at h
  · cases h
  · exact h

/-- Under the invariant, the file `load_tasks` reads back (after the optional
append of the unsaved dicts) still has pairwise distinct ids, all below
`next_id`. -/
theorem mergedFile_facts (ch : String) (st : Store) (file : Option (List TaskDict))
    (hi : StInv st file) :
    (fileIds (mergedFile ch st file)).Nodup ∧
    ∀ i ∈ fileIds (mergedFile ch st file), i < st.next_id := by
  unfold mergedFile
  split
  case isTrue hcond =>
    have hunsub : (st.tasks.filter (fun t => !t.saved)).Sublist st.tasks :=
      List.filter_sublist st.tasks
    have hdictids : ((st.tasks.filter (fun t => !t.saved)).map Task.dict).map TaskDict.id
        = idsOf (st.tasks.filter (fun t => !t.saved)) :=
      dict_ids_eq _ (fun t ht => hi.dict_id t (hunsub.subset ht))
    have hunsaved : ∀ t ∈ st.tasks.filter (fun t => !t.saved), t.saved = false := by
      intro t ht
      have h2 := List.of_mem_filter ht
      simpa using h2
    have hfilterids : ∀ i ∈ idsOf (st.tasks.filter (fun t => !t.saved)),
        ∃ t ∈ st.tasks.filter (fun t => !t.saved), t.id = i := by
      intro i hmem
      obtain ⟨t, ht, hti⟩ := List.mem_map.1 hmem
      exact ⟨t, ht, hti⟩
    constructor
    · show ((file.getD [] ++ (st.tasks.filter (fun t => !t.saved)).map Task.dict).map
        TaskDict.id).Nodup
      rw [List.map_append, fileIds_getD, hdictids, List.nodup_append]
      refine ⟨hi.file_nodup, List.Nodup.sublist (hunsub.map Task.id) hi.mem_nodup,
        fun a ha hb => ?_⟩
      obtain ⟨t, ht, hti⟩ := hfilterids a hb
      have hns := hi.unsaved_fresh t (hunsub.subset ht) (hunsaved t ht)
      rw [hti] at hns
      exact hns ha
    · intro i hmem
      show i < st.next_id
      rw [show fileIds (some (file.getD [] ++ (st.tasks.filter (fun t => !t.saved)).map
        Task.dict)) = (file.getD [] ++ (st.tasks.filter (fun t => !t.saved)).map
        Task.dict).map TaskDict.id from rfl] at hmem
      rw [List.map_append, fileIds_getD, hdictids] at hmem
      rcases List.mem_append.1 hmem with hf | hu
      · exact hi.file_lt i hf
      · obtain ⟨t, ht, hti⟩ := hfilterids i hu
        rw [← hti]
        exact hi.mem_lt t (hunsub.subset ht)
  case isFalse => exact ⟨hi.file_nodup, hi.file_lt⟩

/-- `load_tasks` preserves the invariant. -/
theorem stinv_load (svc : DateSvc) (ch : String) (st st' : Store)
    (file file' : Option (List TaskDict)) (hi : StInv st file)
    (h : load_tasks svc ch st file = .ok (st', file')) : StInv st' file' := by
  unfold load_tasks at h
  have hmf := mergedFile_facts ch st file hi
  cases hm : mergedFile ch st file with
  | none =>
    simp only [hm] at h
    injection h with h
    obtain ⟨h1, h2⟩ := Prod.mk.inj h
    subst h1
    subst h2
    have hf := mergedFile_none ch st file hm
    subst hf
    exact hi
  | some entries =>
    simp only [hm] at h
    rw [hm] at hmf
    cases hl : loadLoop svc entries [] with
    | crash ts => rw [hl] at h; cases h
    | ok ts =>
      rw [hl] at h
      injection h with h
      obtain ⟨h1, h2⟩ := Prod.mk.inj h
      subst h1
      subst h2
      obtain ⟨hids, hfresh⟩ := loadLoop_ok_facts svc entries [] ts hl
      simp only [idsOf, List.map_nil, List.nil_append] at hids
      have hmem_id : ∀ t ∈ ts, t.id ∈ entries.map TaskDict.id := by
        intro t ht
        have : t.id ∈ idsOf ts := List.mem_map.2 ⟨t, ht, rfl⟩
        simpa [idsOf, hids] using this
      refine ⟨?_, ?_, ?_, ?_, ?_, ?_⟩
      · show (idsOf ts).Nodup
        simp only [idsOf]
        rw [hids]
        exact hmf.1
      · exact hmf.1
      · intro t ht
        exact hmf.2 t.id (hmem_id t ht)
      · exact hmf.2
      · intro t ht
        rcases hfresh t ht with hco | hp
        · cases hco
        · exact hp.2
      · intro t ht hs
        rcases hfresh t ht with hco | hp
        · cases hco
        · rw [hp.1] at hs
          cases hs

/-- Every successfully completed, undo-free loop iteration preserves the
invariant; the pushed history is irrelevant to it. -/
theorem stinv_step (svc : DateSvc) (c : String) (inp : Inputs) (s s' : Sys)
    (hc : c ≠ "7") (hi : StInv s.store s.file)
    (h : step svc c inp s = .ok s') : StInv s'.store s'.file := by
  simp only [step] at h
  split at h
  · injection h with h
    subst h
    show StInv (view_tasks inp.sortAnswer inp.sortChoice s.store).1 s.file
    rw [view_tasks_fst inp.sortAnswer inp.sortChoice s.store]
    exact hi
  · split at h
    · split at h
      · rename_i st heq
        injection h with h
        subst h
        exact stinv_add svc _ _ _ _ _ _ hi heq
      · cases h
    · split at h
      · split at h
        · rename_i st heq
          injection h with h
          subst h
          exact stinv_complete _ _ _ _ hi heq
        · cases h
      · split at h
        · split at h
          · rename_i st heq
            injection h with h
            subst h
            exact stinv_remove _ _ _ _ hi heq
          · cases h
        · split at h
          · injection h with h
            subst h
            exact stinv_save _ _ hi
          · split at h
            · split at h
              · rename_i st f heq
                injection h with h
                subst h
                exact stinv_load svc _ _ _ _ _ hi heq
              · cases h
            · split at h
              · rename_i h7
                exact absurd (by simpa using h7) hc
              · split at h
                · injection h with h
                  subst h
                  exact hi
                · injection h with h
                  subst h
                  exact hi

/-- The invariant holds at startup. -/
theorem stinv_init (l : List TaskDict) (n : Nat) (hn : get_next_id (some l) = some n)
    (hnd : (l.map TaskDict.id).Nodup) :
    StInv { tasks := [], next_id := n } (some l) := by
  refine ⟨by simp [idsOf], hnd, by simp, ?_, by simp, by simp⟩
  intro i hmem
  show i < n
  simp only [get_next_id] at hn
  cases hr : runningMax (l.map TaskDict.id) with
  | none => rw [hr] at hn; cases hn
  | some m =>
    rw [hr] at hn
    injection hn with hn
    have hle := runningMax_le (l.map TaskDict.id) m hr i hmem
    omega

/-- Every undo-free reachable state satisfies the invariant. -/
theorem reachableNU_inv (svc : DateSvc) (sys : Sys) (h : ReachableNU svc sys) :
    StInv sys.store sys.file := by
  induction h with
  | init l n hn hnd => exact stinv_init l n hn hnd
  | tr c inp s s' hc _ hstep ih => exact stinv_step svc c inp s s' hc ih hstep

/-! ### Concrete data for concrete executions -/

/-- Concrete date service for concrete executions: every string parses, to the
constant timestamp 2, and every timestamp renders as the string d. -/
def cSvc : DateSvc := { parse := fun _ => some 2, toStr := fun _ => "d" }

/-- Concrete user inputs for concrete executions. -/
def cInp : Inputs :=
  { title := "t", dateInput := "x", priorityInput := "1", idInput := "0",
    sortAnswer := "n", sortChoice := "1", saveChoice := "y" }

/-- One concrete task used by concrete runs. -/
def cTask : Task := Task.init cSvc.toStr 0 "t" 2 "1" false false

/-- The startup snapshot entry of the duplicate-id run. -/
def c2e0 : TaskDict :=
  { id := 0, title := "x", due_date := "d", priority := "1", complete := false }

/-- The task added during the duplicate-id run. -/
def c2t1 : Task := Task.init cSvc.toStr 1 "t" 2 "1" false false

/-- Duplicate-id run, startup state (file holds one entry of id 0). -/
def c2s0 : Sys :=
  { store := { tasks := [], next_id := 1 }, history := [], file := some [c2e0] }

/-- Duplicate-id run after adding a task (choice 2). -/
def c2s1 : Sys :=
  { store := { tasks := [c2t1], next_id := 2 },
    history := [{ tasks := [], next_id := 1 }], file := some [c2e0] }

/-- Duplicate-id run after an unrecognized choice 9, which only pushes. -/
def c2s2 : Sys :=
  { store := { tasks := [c2t1], next_id := 2 },
    history := [{ tasks := [c2t1], next_id := 2 }, { tasks := [], next_id := 1 }],
    file := some [c2e0] }

/-- Duplicate-id run after saving (choice 5). -/
def c2s3 : Sys :=
  { store := { tasks := [Task.init cSvc.toStr 1 "t" 2 "1" false true], next_id := 2 },
    history := [{ tasks := [c2t1], next_id := 2 }, { tasks := [], next_id := 1 }],
    file := some [c2t1.dict] }

/-- Duplicate-id run after undo (choice 7): the unsaved copy of the task is
back while its dict already sits in the file. -/
def c2s4 : Sys :=
  { store := { tasks := [c2t1], next_id := 2 },
    history := [{ tasks := [], next_id := 1 }], file := some [c2t1.dict] }

/-- Duplicate-id run after loading with the save-before-load confirmation
(choice 6, answer y): the dict is appended a second time and read back. -/
def c2s5 : Sys :=
  { store := { tasks := [Task.init cSvc.toStr 1 "t" 2 "1" false true,
                         Task.init cSvc.toStr 1 "t" 2 "1" false true], next_id := 2 },
    history := [{ tasks := [], next_id := 1 }], file := some [c2t1.dict, c2t1.dict] }

/-- The duplicate-id state is reachable through add, an unrecognized choice,
save, undo, and load with the save confirmation. -/
theorem c2_reach : Reachable cSvc c2s5 :=
  Reachable.tr "6" cInp c2s4 c2s5
    (Reachable.tr "7" cInp c2s3 c2s4
      (Reachable.tr "5" cInp c2s2 c2s3
        (Reachable.tr "9" cInp c2s1 c2s2
          (Reachable.tr "2" cInp c2s0 c2s1
            (Reachable.init [c2e0] 1 (by decide) (by decide))
            (by decide))
          (by decide))
        (by decide))
      (by decide))
    (by decide)

/-! ### The claims -/

/-- C2, counterexample: the claim as stated is false. A reachable state (add;
unrecognized choice; save; undo; load answering y to the save prompt) holds
two in-memory tasks with the same id 1: the undone task is unsaved again while
its dict already sits in the file, so the save-before-load path appends it a
second time and the load reads both copies back. -/
theorem c2_counterexample :
    ∃ sys : Sys, Reachable cSvc sys ∧ ¬ (idsOf sys.store.tasks).Nodup :=
  ⟨c2s5, c2_reach, by decide⟩

/-- C2, amended: in every state reachable from a startup snapshot with
pairwise-distinct ids by any sequence of commands that never invokes undo
(add, complete, remove, save, load including the save-before-load append
path, view, unrecognized choices), the ids of the in-memory tasks are
pairwise distinct; with undo in the sequence, duplicates are reachable. -/
theorem c2_amended (svc : DateSvc) (sys : Sys) (h : ReachableNU svc sys) :
    (idsOf sys.store.tasks).Nodup :=
  (reachableNU_inv svc sys h).mem_nodup

/-- C2, witness: the amended theorem applied to a concrete undo-free run. -/
theorem c2_witness : (idsOf c2s1.store.tasks).Nodup :=
  c2_amended cSvc c2s1
    (ReachableNU.tr "2" cInp c2s0 c2s1 (by decide)
      (ReachableNU.init [c2e0] 1 (by decide) (by decide)) (by decide))

/-- C1, counterexample: undoing with current next_id 5 over a most recent
snapshot with next_id 3 does not restore the snapshot's counter, so undo does
not restore both the task list and the next-id counter. -/
theorem c1_counterexample :
    undo { tasks := [], next_id := 5 } [{ tasks := [], next_id := 3 }] ≠
      Outcome.ok ({ tasks := [], next_id := 3 }, ([] : List Store)) := by decide

/-- C1, amended: for every store state with a non-empty history, invoking
undo pops exactly the most recent history snapshot and restores the task list
from it, but the next-id counter is not restored and keeps its current value
(the file is untouched) — stated both for the `undo` operation itself and for
the undo choice of the command loop at an arbitrary state; in particular add
followed immediately by undo leaves the pre-add task list while next_id stays
incremented by one, with the one snapshot the add pushed consumed. -/
theorem c1_amended :
    (∀ (st prev : Store) (rest : List Store),
      undo st (prev :: rest) =
        .ok ({ tasks := prev.tasks, next_id := st.next_id }, rest)) ∧
    (∀ (svc : DateSvc) (j : Inputs) (sys : Sys) (prev : Store) (rest : List Store),
      sys.history = prev :: rest →
      step svc "7" j sys =
        .ok { store := { tasks := prev.tasks, next_id := sys.store.next_id },
              history := rest, file := sys.file }) ∧
    (∀ (svc : DateSvc) (i j : Inputs) (sys sys1 sys2 : Sys),
      step svc "2" i sys = .ok sys1 → step svc "7" j sys1 = .ok sys2 →
      sys1.history = sys.store :: sys.history ∧
      sys2.store.tasks = sys.store.tasks ∧
      sys2.store.next_id = sys.store.next_id + 1 ∧
      sys2.history = sys.history ∧ sys2.file = sys.file) := by
  refine ⟨fun st prev rest => rfl, ?_, ?_⟩
  · intro svc j sys prev rest hsys
    simp only [step]
    rw [if_neg (by simp), if_neg (by simp), if_neg (by simp), if_neg (by simp),
      if_neg (by simp), if_neg (by simp), if_pos (by simp)]
    simp only [noPushChoices, undo]
    rw [if_pos (by decide), hsys]
  · intro svc i j sys sys1 sys2 h1 h2
    simp only [step, noPushChoices] at h1 h2
    simp only [show ((("2" : String) == "1") = false) from rfl] at h1
    simp at h1 h2
    cases ha : add_task svc i.title i.dateInput i.priorityInput sys.store with
    | crash st => rw [ha] at h1; cases h1
    | ok st =>
      rw [ha] at h1
      injection h1 with h1
      subst h1
      unfold add_task at ha
      cases hp : svc.parse i.dateInput with
      | none => rw [hp] at ha; cases ha
      | some dd =>
        rw [hp] at ha
        injection ha with ha
        subst ha
        simp only [undo] at h2
        injection h2 with h2
        subst h2
        refine ⟨rfl, rfl, rfl, rfl, rfl⟩

/-- Add-undo run, initial state. -/
def c1s0 : Sys := { store := { tasks := [], next_id := 0 }, history := [], file := none }

/-- Add-undo run after the add. -/
def c1s1 : Sys :=
  { store := { tasks := [Task.init cSvc.toStr 0 "t" 2 "1" false false], next_id := 1 },
    history := [{ tasks := [], next_id := 0 }], file := none }

/-- Add-undo run after the undo: empty again, counter still incremented. -/
def c1s2 : Sys := { store := { tasks := [], next_id := 1 }, history := [], file := none }

/-- C1, witness: the amended undo behavior at a concrete add-undo run. -/
theorem c1_witness :
    c1s1.history = c1s0.store :: c1s0.history ∧
    c1s2.store.tasks = c1s0.store.tasks ∧
    c1s2.store.next_id = c1s0.store.next_id + 1 ∧
    c1s2.history = c1s0.history ∧ c1s2.file = c1s0.file :=
  c1_amended.2.2 cSvc cInp cInp c1s0 c1s1 c1s2 (by decide) (by decide)

/-- C3: contrary to the claim, an id matching no task makes `complete_task`
crash (`task_` stays `None` and the property assignment raises) and
`remove_task` crash (`task_` stays unbound and `remove` raises), and undo on
an empty history crashes (`previous_state` is the initial empty list, which
has no `tasks` attribute); none of them reports and continues. The crash
outcome carries the unchanged store. -/
theorem c3_code_bug :
    complete_task "5" { tasks := [cTask], next_id := 1 } =
      .crash { tasks := [cTask], next_id := 1 } ∧
    remove_task "5" { tasks := [cTask], next_id := 1 } =
      .crash { tasks := [cTask], next_id := 1 } ∧
    undo { tasks := [cTask], next_id := 1 } [] =
      .crash ({ tasks := [cTask], next_id := 1 }, ([] : List Store)) := by decide

/-- C4: the serializable view is a cached dict and the completion setter
writes the literal `True` into it: after assigning `false` to the completion
flag the field is false but the cached dict still says true, so the view
differs from the field-for-field mapping computed from the current fields. -/
theorem c4_code_bug (toStr : Nat → String) (t : Task) :
    (t.setComplete false)._complete = false ∧
    (t.setComplete false).dict.complete = true ∧
    (t.setComplete false).dict ≠ Task.freshDict toStr (t.setComplete false) := by
  refine ⟨rfl, rfl, fun h => ?_⟩
  have h2 := congrArg TaskDict.complete h
  simp [Task.setComplete, Task.freshDict] at h2

/-- C5, counterexample: completing an already saved task leaves `saved =
true`; the setter does not clear the persisted flag. -/
theorem c5_counterexample :
    ¬ (((Task.init cSvc.toStr 0 "t" 2 "1" false true).setComplete true).saved = false) := by
  decide

/-- C5, amended: the completion setter, as invoked by `complete_task`, sets
the completion field (and the cached dict entry) to true, also when the task
was already complete, but leaves the saved flag unchanged. -/
theorem c5_amended (t : Task) :
    (t.setComplete true)._complete = true ∧
    (t.setComplete true).dict.complete = true ∧
    (t.setComplete true).saved = t.saved :=
  ⟨rfl, rfl, rfl⟩

/-- C6: `get_next_id` returns max id + 1 on a non-empty snapshot as claimed,
but crashes instead of returning 0 when the file is absent (`file_data`
unbound in the `finally` block, `NameError`) or holds an empty array
(`max_id` unbound, `UnboundLocalError`). -/
theorem c6_code_bug :
    get_next_id (some
      [{ id := 3, title := "a", due_date := "d", priority := "1", complete := false },
       { id := 7, title := "b", due_date := "d", priority := "2", complete := true }]) = some 8 ∧
    get_next_id none = none ∧
    get_next_id (some []) = none := by decide

/-- The always-failing date service: stands for any unparseable date input. -/
def badSvc : DateSvc := { parse := fun _ => none, toStr := fun _ => "d" }

/-- C7: on a date string the parser rejects, `add_task` prints the
invalid-date message but then crashes with `UnboundLocalError` (the broken
retry loop leaves `due_date` unbound and `except ValueError` does not catch
the error), instead of aborting cleanly so the command can be retried; the
crash happens before any mutation, so the carried store is unchanged. -/
theorem c7_code_bug :
    add_task badSvc "t" "not a date" "1" { tasks := [cTask], next_id := 1 } =
      .crash { tasks := [cTask], next_id := 1 } := by decide

/-- C9, counterexample: with a single stored task and the unknown sorting
option 3, `sorted(self.tasks, key=None)` performs no comparison, so no
`TypeError` is raised and the invalid-option message is not reported,
contrary to the claim that an unknown sort key is reported as invalid. -/
theorem c9_counterexample :
    (view_tasks "y" "3" { tasks := [cTask], next_id := 1 }).2.2 = false := by decide

/-- C9, amended: `view_tasks` never changes the stored store; with no sort
requested the displayed list is the stored order; with an unknown sort key it
falls back to the unsorted original order, and the key is reported as invalid
exactly when the list has at least two tasks (with fewer, no comparison runs
and no report is made). -/
theorem c9_amended (a c : String) (st : Store) :
    (view_tasks a c st).1 = st ∧
    (a ≠ "y" → (view_tasks a c st).2.1 = st.tasks) ∧
    (a = "y" → c ≠ "1" → c ≠ "2" →
      (view_tasks a c st).2.1 = st.tasks ∧
      ((view_tasks a c st).2.2 = true ↔ 2 ≤ st.tasks.length)) := by
  refine ⟨view_tasks_fst a c st, ?_, ?_⟩
  · intro ha
    unfold view_tasks
    split
    · rename_i he
      exact (List.isEmpty_iff.1 he).symm
    · rw [if_neg (by simp [ha])]
  · intro ha hc1 hc2
    subst ha
    unfold view_tasks
    split
    · rename_i he
      rw [List.isEmpty_iff.1 he]
      simp
    · rename_i he
      rw [if_pos (by simp), if_neg (by simp [hc1]), if_neg (by simp [hc2])]
      split
      · rename_i hlen
        exact ⟨rfl, by simpa using hlen⟩
      · rename_i hlen
        exact ⟨rfl, by simpa using hlen⟩

/-- C10: every menu choice outside the no-push set (view, save, load, undo,
exit) pushes a deep copy of the current store onto the history before
dispatch, whether or not the dispatched command then completes; and for a
choice matching no command at all, the iteration does nothing but push and
print, so an immediate undo pops that snapshot and returns exactly the state
from before the invalid choice, consuming one history level. -/
theorem c10_push_and_undo (svc : DateSvc) (choice : String) (i j : Inputs) (sys : Sys)
    (hpush : choice ∉ noPushChoices) :
    (step svc choice i sys).val.history = sys.store :: sys.history ∧
    (choice ∉ ["1", "2", "3", "4", "5", "6", "7", "8"] →
      step svc choice i sys = .ok { sys with history := sys.store :: sys.history } ∧
      step svc "7" j { sys with history := sys.store :: sys.history } = .ok sys) := by
  have hcont : noPushChoices.contains choice = false := by simpa using hpush
  constructor
  · simp only [step, hcont, Bool.false_eq_true, if_false]
    split
    · rename_i h1
      have he : choice = "1" := by simpa using h1
      subst he
      exact absurd (by decide : ("1" : String) ∈ noPushChoices) hpush
    · split
      · cases add_task svc i.title i.dateInput i.priorityInput sys.store <;> rfl
      · split
        · cases complete_task i.idInput sys.store <;> rfl
        · split
          · cases remove_task i.idInput sys.store <;> rfl
          · split
            · rename_i h5
              have he : choice = "5" := by simpa using h5
              subst he
              exact absurd (by decide : ("5" : String) ∈ noPushChoices) hpush
            · split
              · rename_i h6
                have he : choice = "6" := by simpa using h6
                subst he
                exact absurd (by decide : ("6" : String) ∈ noPushChoices) hpush
              · split
                · rename_i h7
                  have he : choice = "7" := by simpa using h7
                  subst he
                  exact absurd (by decide : ("7" : String) ∈ noPushChoices) hpush
                · split
                  · rename_i h8
                    have he : choice = "8" := by simpa using h8
                    subst he
                    exact absurd (by decide : ("8" : String) ∈ noPushChoices) hpush
                  · rfl
  · intro hmem
    simp only [List.mem_cons, not_or] at hmem
    obtain ⟨n1, n2, n3, n4, n5, n6, n7, n8, -⟩ := hmem
    constructor
    · simp only [step, hcont, Bool.false_eq_true, if_false]
      rw [if_neg (by simp [n1]), if_neg (by simp [n2]), if_neg (by simp [n3]),
        if_neg (by simp [n4]), if_neg (by simp [n5]), if_neg (by simp [n6]),
        if_neg (by simp [n7]), if_neg (by simp [n8])]
    · simp only [step]
      rw [if_neg (by simp), if_neg (by simp), if_neg (by simp), if_neg (by simp),
        if_neg (by simp), if_neg (by simp), if_pos (by simp)]
      simp only [noPushChoices, undo]
      rw [if_pos (by decide)]

/-- C10, witness: the push-then-undo behavior at the concrete unmatched
choice 9. -/
theorem c10_witness :
    step cSvc "9" cInp c1s0 = .ok { c1s0 with history := c1s0.store :: c1s0.history } ∧
    step cSvc "7" cInp { c1s0 with history := c1s0.store :: c1s0.history } = .ok c1s0 :=
  (c10_push_and_undo cSvc "9" cInp cInp c1s0 (by decide)).2 (by decide)

/-- The task `load_tasks` rebuilds from a dict computed fresh from `t`:
same fields, `saved = True`, the dict rebuilt from the parsed fields. -/
def reload (svc : DateSvc) (t : Task) : Task :=
  Task.init svc.toStr t.id t.title t.due_date t.priority t._complete true

/-- The observable fields of a task: (id, title, due_date, priority,
complete). -/
def proj5 (t : Task) : Nat × String × Nat × String × Bool :=
  (t.id, t.title, t.due_date, t.priority, t._complete)

/-- Reading back dicts that were computed fresh from tasks, with a parse that
inverts the rendering, rebuilds exactly the reloaded tasks. -/
theorem loadLoop_fresh (svc : DateSvc) (hrt : ∀ d, svc.parse (svc.toStr d) = some d)
    (l : List Task) (hwf : ∀ t ∈ l, t.dict = Task.freshDict svc.toStr t) (acc : List Task) :
    loadLoop svc (l.map Task.dict) acc = .ok (acc ++ l.map (reload svc)) := by
  induction l generalizing acc with
  | nil => simp [loadLoop]
  | cons t ts ih =>
    have hd : t.dict = Task.freshDict svc.toStr t := hwf t (List.mem_cons_self t ts)
    simp only [List.map_cons, loadLoop, hd, Task.freshDict]
    rw [hrt t.due_date]
    simp only [ih (fun a ha => hwf a (List.mem_cons_of_mem t ha))]
    simp [reload, Task.init]

/-- C8: save immediately followed by load, with no intervening mutation,
succeeds (all tasks are flagged saved, so no save prompt fires), replaces the
in-memory list with one equal in (id, title, due_date, priority, complete)
for every task and in the same order, and marks every resulting task saved.
Stated for a date service whose parse inverts the datetime rendering, and for
stores whose cached dicts agree with the current fields (true in every state
the program itself builds). -/
theorem c8_roundtrip (svc : DateSvc) (st : Store) (choice : String)
    (hrt : ∀ d, svc.parse (svc.toStr d) = some d)
    (hwf : ∀ t ∈ st.tasks, t.dict = Task.freshDict svc.toStr t) :
    load_tasks svc choice (save_tasks st).1 (some (save_tasks st).2) =
      .ok ({ tasks := st.tasks.map (reload svc), next_id := st.next_id },
           some (save_tasks st).2) ∧
    (st.tasks.map (reload svc)).map proj5 = st.tasks.map proj5 ∧
    ∀ t ∈ st.tasks.map (reload svc), t.saved = true := by
  have hunsaved : ((save_tasks st).1.tasks.filter (fun t => !t.saved)) = [] := by
    refine List.filter_eq_nil_iff.2 (fun t ht => ?_)
    obtain ⟨a, ha, hae⟩ := List.mem_map.1 ht
    rw [← hae]
    simp
  have hmf : mergedFile choice (save_tasks st).1 (some (save_tasks st).2) =
      some (save_tasks st).2 := by
    unfold mergedFile
    rw [hunsaved]
    simp
  refine ⟨?_, ?_, ?_⟩
  · have hload := loadLoop_fresh svc hrt st.tasks hwf []
    simp only [List.nil_append] at hload
    have hmf2 := hmf
    simp only [save_tasks] at hmf2
    unfold load_tasks
    simp only [save_tasks, hmf2, hload]
  · rw [List.map_map]
    rfl
  · intro t ht
    obtain ⟨a, ha, hae⟩ := List.mem_map.1 ht
    rw [← hae]
    rfl

/-- Date service whose parse inverts its rendering: a timestamp renders as a
run of letters of that length and parse measures the length. -/
def wSvc : DateSvc :=
  { parse := fun s => some s.length,
    toStr := fun n => String.mk (List.replicate n (Char.ofNat 97)) }

/-- The rendering of `wSvc` parses back to the timestamp it came from. -/
theorem wSvc_roundtrip (d : Nat) : wSvc.parse (wSvc.toStr d) = some d := by
  show some (String.mk (List.replicate d (Char.ofNat 97))).length = some d
  rw [show (String.mk (List.replicate d (Char.ofNat 97))).length =
    (List.replicate d (Char.ofNat 97)).length from rfl]
  rw [List.length_replicate]

/-- Concrete one-task store for the round-trip witness. -/
def wSt : Store := { tasks := [Task.init wSvc.toStr 0 "t" 2 "1" false false], next_id := 1 }

/-- C8, witness: the round trip at a concrete one-task store. -/
theorem c8_witness :
    load_tasks wSvc "n" (save_tasks wSt).1 (some (save_tasks wSt).2) =
      .ok ({ tasks := wSt.tasks.map (reload wSvc), next_id := wSt.next_id },
           some (save_tasks wSt).2) ∧
    (wSt.tasks.map (reload wSvc)).map proj5 = wSt.tasks.map proj5 ∧
    ∀ t ∈ wSt.tasks.map (reload wSvc), t.saved = true :=
  c8_roundtrip wSvc wSt "n" wSvc_roundtrip (by decide)

end TaskMgr
